import Mathlib

/-!
Verification of the FREQUENCY repository's scheduling/synchronization core.

The JavaScript sources are embedded shallowly: JS numbers are modelled as
exact rationals (`ℚ`) where the code only does field arithmetic and
comparisons, and as reals (`ℝ`) where the code calls `Math.sin` / `Math.cos`.
The JS remainder operator `%` (sign follows the dividend) is modelled by
`jsRem`.  Stateful classes become explicit state records plus functions from
state to state, and calls into the Web Audio API (`setValueAtTime`,
`cancelScheduledValues`) become explicit action lists applied to an event
queue.
-/

/-- Truncation toward zero on rationals: the behaviour of float-to-integer
truncation used by the JS `%` operator. -/
def truncQ (q : ℚ) : ℤ :=
  if 0 ≤ q then ⌊q⌋ else ⌈q⌉

/-- JavaScript remainder `x % y`: `x - y * trunc (x / y)`.  The result has the
sign of the dividend `x` (for positive `y`). -/
def jsRem (x y : ℚ) : ℚ :=
  x - y * (truncQ (x / y) : ℚ)

/-- Reference Phase Clock from the spec: `phase = ((time - startTime) * freq) mod 1.0`
with the mathematical modulus into `[0,1)`. -/
def specPhase (time startTime freq : ℚ) : ℚ :=
  Int.fract ((time - startTime) * freq)

/-- Reference Phase Clock from the spec: `isOn = phase < dutyCycle`, and for
`time < startTime` the state is defined as OFF. -/
def specIsOn (time startTime freq dutyCycle : ℚ) : Bool :=
  if time < startTime then false
  else decide (specPhase time startTime freq < dutyCycle)

/-! ### Constants (src/js/constants.js) -/

def SCHEDULER_LOOKAHEAD_S : ℚ := 2
def GAIN_ON : ℚ := 1
def GAIN_OFF : ℚ := 0

/-! ### AudioEngine (src/unnamed/part_002, class AudioEngine) -/

/-- Mutable fields of `AudioEngine` that the scheduling math reads or writes. -/
structure AudioEngineState where
  carrierFreq : ℚ
  pulseFreq : ℚ
  dutyCycle : ℚ
  startTime : ℚ
  nextPulseIndex : ℕ
  running : Bool
  useWorklet : Bool
  deriving Repr, DecidableEq

namespace AudioEngine

/-- AudioEngine.getCurrentPulseState (src/unnamed/part_002 lines 301-307):
if not running return false; `elapsed = time - startTime`; if `elapsed < 0`
return false; `phase = (elapsed * pulseFreq) % 1.0`; return `phase < dutyCycle`. -/
def getCurrentPulseState (st : AudioEngineState) (time : ℚ) : Bool :=
  if !st.running then false
  else
    let elapsed := time - st.startTime
    if elapsed < 0 then false
    else
      let phase := jsRem (elapsed * st.pulseFreq) 1
      decide (phase < st.dutyCycle)

end AudioEngine

/-! ### VisualEngine (src/unnamed/part_002, class VisualEngine) -/

/-- Fields of `VisualEngine` read by `getPulseState`. -/
structure VisualEngineState where
  pulseFreq : ℚ
  dutyCycle : ℚ
  startTime : ℚ
  deriving Repr, DecidableEq

namespace VisualEngine

/-- VisualEngine.getPulseState (src/unnamed/part_002 lines 392-397):
`elapsed = time - startTime`; if `elapsed < 0` return false;
`phase = (elapsed * pulseFreq) % 1.0`; return `phase < dutyCycle`. -/
def getPulseState (st : VisualEngineState) (time : ℚ) : Bool :=
  let elapsed := time - st.startTime
  if elapsed < 0 then false
  else
    let phase := jsRem (elapsed * st.pulseFreq) 1
    decide (phase < st.dutyCycle)

end VisualEngine

/-! ### Pulse worklet gate (src/js/pulse-worklet-processor.js lines 59-64) -/

/-- Per-sample pulse gate of the frame-based pulse worklet:
`elapsed = (frame - startFrame) / sampleRate`;
`pulsePhase = (elapsed * pulseFreq) % 1.0`;
`gate = pulsePhase < dutyCycle ? 1.0 : 0.0`. -/
def pulseGate (sampleRate : ℚ) (startFrame frame : ℤ) (pulseFreq dutyCycle : ℚ) : ℚ :=
  let elapsed : ℚ := ((frame : ℚ) - (startFrame : ℚ)) / sampleRate
  let pulsePhase := jsRem (elapsed * pulseFreq) 1
  if pulsePhase < dutyCycle then 1 else 0

/-! ### Worklet processors (src/js/pulse-worklet-processor.js,
src/unnamed/part_001, src/js/binaural-worklet-processor.js) -/

/-- The phase wrap used by every accumulator:
`if (phase >= 1.0) { phase -= Math.floor(phase) }`. -/
def wrapPhase (x : ℚ) : ℚ :=
  if x ≥ 1 then x - (⌊x⌋ : ℚ) else x

/-- Read an a-rate AudioParam array at sample `i`:
`isConstant ? arr[0] : arr[i]` where `isConstant = (arr.length === 1)`. -/
def paramAt (arr : List ℚ) (i : ℕ) : ℚ :=
  if arr.length = 1 then arr.getD 0 0 else arr.getD i 0

/-- Phase accumulators of the frame-based pulse worklet would be just the
carrier phase; the accumulator variant (src/unnamed/part_001) also keeps the
pulse phase. -/
structure PulsePhases where
  carrierPhase : ℚ
  pulsePhase : ℚ
  deriving Repr, DecidableEq

/-- Phase accumulators of the binaural worklet. -/
structure BinauralState where
  leftPhase : ℚ
  rightPhase : ℚ
  deriving Repr, DecidableEq

namespace BinauralWorkletProcessor

/-- One loop iteration of BinauralWorkletProcessor.process on the phase state:
advance `_leftPhase` by `cf / sampleRate`, `_rightPhase` by
`(cf + bf) / sampleRate`, then wrap both into [0, 1). -/
def stepState (sampleRate cf bf : ℚ) (st : BinauralState) : BinauralState :=
  ⟨wrapPhase (st.leftPhase + cf / sampleRate),
   wrapPhase (st.rightPhase + (cf + bf) / sampleRate)⟩

/-- The phase state before sample `i` of the block (equivalently, after `i`
loop iterations from the state at block entry). -/
def stateAt (sampleRate : ℚ) (cfArr bfArr : List ℚ) (st0 : BinauralState) :
    ℕ → BinauralState
  | 0 => st0
  | i + 1 => stepState sampleRate (paramAt cfArr i) (paramAt bfArr i)
      (stateAt sampleRate cfArr bfArr st0 i)

/-- BinauralWorkletProcessor.process (src/js/binaural-worklet-processor.js
lines 27-69) for one block of `n` frames: if `active[0] >= 0.5` fails, fill
both channels with zeros and keep the state; otherwise sample `i` of the left
(resp. right) channel is `Math.sin(2π · _leftPhase)` (resp. `_rightPhase`)
read before the advance, and the state advances through `stepState`.  The
final `true` is the processor keep-alive return value. -/
noncomputable def process (active sampleRate : ℚ) (cfArr bfArr : List ℚ)
    (n : ℕ) (st0 : BinauralState) : (List ℝ × List ℝ) × BinauralState × Bool :=
  if active ≥ 1/2 then
    (((List.range n).map fun i =>
        Real.sin (2 * Real.pi * (((stateAt sampleRate cfArr bfArr st0 i).leftPhase : ℚ) : ℝ)),
      (List.range n).map fun i =>
        Real.sin (2 * Real.pi * (((stateAt sampleRate cfArr bfArr st0 i).rightPhase : ℚ) : ℝ))),
     stateAt sampleRate cfArr bfArr st0 n, true)
  else ((List.replicate n 0, List.replicate n 0), st0, true)

end BinauralWorkletProcessor

namespace PulseWorkletProcessor

/-- Carrier phase before sample `i` in the frame-based pulse worklet
(src/js/pulse-worklet-processor.js lines 66-76): advance by
`cf / sampleRate` and wrap into [0, 1) each iteration. -/
def carrierAt (sampleRate : ℚ) (cfArr : List ℚ) (c0 : ℚ) : ℕ → ℚ
  | 0 => c0
  | i + 1 => wrapPhase (carrierAt sampleRate cfArr c0 i + paramAt cfArr i / sampleRate)

/-- PulseWorkletProcessor.process (src/js/pulse-worklet-processor.js lines
37-79, frame-based revision) for one block of `n` frames starting at device
frame `currentFrame`: if inactive, zeros and unchanged state; otherwise sample
`i` is `Math.sin(2π · _carrierPhase) * gate` with the gate computed by
`pulseGate` from the absolute frame and `_pulseStartFrame`.  Returns the
samples, the final `(_carrierPhase, _pulseStartFrame)` state, and the
keep-alive `true`. -/
noncomputable def process (active sampleRate : ℚ) (currentFrame startFrame : ℤ)
    (cfArr pfArr : List ℚ) (dutyCycle : ℚ) (n : ℕ) (c0 : ℚ) :
    List ℝ × (ℚ × ℤ) × Bool :=
  if active ≥ 1/2 then
    ((List.range n).map fun i =>
        Real.sin (2 * Real.pi * ((carrierAt sampleRate cfArr c0 i : ℚ) : ℝ)) *
          ((pulseGate sampleRate startFrame (currentFrame + (i : ℤ))
              (paramAt pfArr i) dutyCycle : ℚ) : ℝ),
     (carrierAt sampleRate cfArr c0 n, startFrame), true)
  else (List.replicate n 0, (c0, startFrame), true)

end PulseWorkletProcessor

namespace PulseWorkletAccum

/-- One loop iteration of the accumulator revision of the pulse worklet
(src/unnamed/part_001 lines 54-75) on the phase state: advance `_pulsePhase`
by `pf / sampleRate` and `_carrierPhase` by `cf / sampleRate`, wrapping both
into [0, 1). -/
def stepState (sampleRate cf pf : ℚ) (st : PulsePhases) : PulsePhases :=
  ⟨wrapPhase (st.carrierPhase + cf / sampleRate),
   wrapPhase (st.pulsePhase + pf / sampleRate)⟩

/-- The phase state before sample `i` of the block. -/
def stateAt (sampleRate : ℚ) (cfArr pfArr : List ℚ) (st0 : PulsePhases) :
    ℕ → PulsePhases
  | 0 => st0
  | i + 1 => stepState sampleRate (paramAt cfArr i) (paramAt pfArr i)
      (stateAt sampleRate cfArr pfArr st0 i)

/-- process of the accumulator revision (src/unnamed/part_001 lines 37-78):
if inactive, zeros and unchanged state; otherwise sample `i` is
`Math.sin(2π · _carrierPhase) * gate` where `gate = _pulsePhase < dutyCycle ?
1 : 0`, both phases read before their advance. -/
noncomputable def process (active sampleRate : ℚ) (cfArr pfArr : List ℚ)
    (dutyCycle : ℚ) (n : ℕ) (st0 : PulsePhases) : List ℝ × PulsePhases × Bool :=
  if active ≥ 1/2 then
    ((List.range n).map fun i =>
        Real.sin (2 * Real.pi * (((stateAt sampleRate cfArr pfArr st0 i).carrierPhase : ℚ) : ℝ)) *
          (if (stateAt sampleRate cfArr pfArr st0 i).pulsePhase < dutyCycle then (1:ℝ) else 0),
     stateAt sampleRate cfArr pfArr st0 n, true)
  else (List.replicate n 0, st0, true)

end PulseWorkletAccum

/-! ### Pulse scheduler (src/unnamed/part_002 lines 123-146,
src/js/constants.js lines 363-388, AudioEngine._schedulePulses) -/

/-- A scheduled gain transition: one `gainNode.gain.setValueAtTime(gain, time)`
call passed to the audio device. -/
structure GainEvent where
  gain : ℚ
  time : ℚ
  deriving Repr, DecidableEq

/-- Events emitted by one iteration of the `_schedulePulses` while-loop body for
pulse index `i` (after the break test): `pulseStart = startTime + i * period`,
`pulseEnd = pulseStart + onDuration`; if `pulseEnd > now`, schedule GAIN_ON at
`pulseStart` (only if `pulseStart > now`) and GAIN_OFF at `pulseEnd`. -/
def pulseEventsFor (startTime period onDuration now : ℚ) (i : ℕ) : List GainEvent :=
  let pulseStart := startTime + (i : ℚ) * period
  let pulseEnd := pulseStart + onDuration
  if pulseEnd > now then
    (if pulseStart > now then [⟨GAIN_ON, pulseStart⟩] else []) ++ [⟨GAIN_OFF, pulseEnd⟩]
  else []

/-- The `while (true)` loop of `_schedulePulses`, with an explicit fuel bound:
starting at index `i`, break once `pulseStart > scheduleUntil`, otherwise emit
the events for index `i` and continue with `i + 1`.  Returns the emitted events
in order together with the final `_nextPulseIndex`. -/
def schedLoop (startTime period onDuration now scheduleUntil : ℚ) :
    ℕ → ℕ → List GainEvent × ℕ
  | 0, i => ([], i)
  | fuel + 1, i =>
    let pulseStart := startTime + (i : ℚ) * period
    if pulseStart > scheduleUntil then ([], i)
    else
      let evs := pulseEventsFor startTime period onDuration now i
      let rest := schedLoop startTime period onDuration now scheduleUntil fuel (i + 1)
      (evs ++ rest.1, rest.2)

namespace AudioEngine

/-- AudioEngine._schedulePulses: guard on `running` / `useWorklet`, then
`scheduleUntil = now + SCHEDULER_LOOKAHEAD_S`, `period = 1 / pulseFreq`,
`onDuration = period * dutyCycle`, and the scheduling loop from
`_nextPulseIndex`.  Returns the emitted gain events and the updated state. -/
def _schedulePulses (st : AudioEngineState) (now : ℚ) (fuel : ℕ) :
    List GainEvent × AudioEngineState :=
  if !st.running || st.useWorklet then ([], st)
  else
    let scheduleUntil := now + SCHEDULER_LOOKAHEAD_S
    let period := 1 / st.pulseFreq
    let onDuration := period * st.dutyCycle
    let r := schedLoop st.startTime period onDuration now scheduleUntil fuel st.nextPulseIndex
    (r.1, { st with nextPulseIndex := r.2 })

end AudioEngine

/-! ### Frequency change (src/unnamed/part_002 lines 251-277,
AudioEngine.setPulseFrequency, legacy branch) -/

/-- An imperative effect on the gain parameter's event timeline:
`cancelScheduledValues(t)` or `setValueAtTime(g, t)`. -/
inductive GainAction where
  | cancelFrom (t : ℚ)
  | setValueAt (g : ℚ) (t : ℚ)
  deriving Repr, DecidableEq

/-- Web Audio event-queue semantics of one gain action:
`cancelScheduledValues(t)` removes every scheduled event with time `≥ t`;
`setValueAtTime(g, t)` appends the event. -/
def applyAction (q : List GainEvent) : GainAction → List GainEvent
  | .cancelFrom t => q.filter (fun e => decide (e.time < t))
  | .setValueAt g t => q ++ [⟨g, t⟩]

/-- Apply a list of gain actions in order to a pending-event queue. -/
def applyActions (q : List GainEvent) (acts : List GainAction) : List GainEvent :=
  acts.foldl applyAction q

namespace AudioEngine

/-- AudioEngine.setPulseFrequency, legacy branch (src/unnamed/part_002 lines
251-254 and 267-276): set `pulseFreq = newFreq`; if not running stop there;
otherwise `cancelScheduledValues(now)`, `setValueAtTime(GAIN_OFF, now)`,
re-anchor `_startTime = now`, reset `_nextPulseIndex = 0`, and re-fill via
`_schedulePulses`.  Returns the emitted gain actions and the new state. -/
def setPulseFrequencyLegacy (st : AudioEngineState) (newFreq now : ℚ) (fuel : ℕ) :
    List GainAction × AudioEngineState :=
  let st1 := { st with pulseFreq := newFreq }
  if !st1.running then ([], st1)
  else
    let st2 := { st1 with startTime := now, nextPulseIndex := 0 }
    let r := _schedulePulses st2 now fuel
    (GainAction.cancelFrom now :: GainAction.setValueAt GAIN_OFF now ::
      r.1.map (fun e => GainAction.setValueAt e.gain e.time), r.2)

end AudioEngine

/-! ### Protocol runner (src/unnamed/part_000, protocol-runner.js) -/

/-- The `type` discriminator plus shape-specific fields of a protocol phase
object: `ramp` carries `freqStart`/`freqEnd`, `sine` carries
`center`/`amplitude`/`period`. -/
inductive PhaseShape where
  | ramp (freqStart freqEnd : ℚ)
  | sine (center amplitude period : ℚ)
  deriving Repr, DecidableEq

/-- One entry of `PROTOCOL_PHASES`. -/
structure ProtocolPhase where
  name : String
  startSec : ℚ
  endSec : ℚ
  shape : PhaseShape
  deriving Repr, DecidableEq

/-- PROTOCOL_DURATION = 1200 (20 minutes in seconds). -/
def PROTOCOL_DURATION : ℚ := 1200

/-- The four configured phases of src/unnamed/part_000 lines 16-21. -/
def PROTOCOL_PHASES : List ProtocolPhase :=
  [⟨"Adaptation", 0, 120, PhaseShape.ramp 38 13⟩,
   ⟨"Transition", 120, 180, PhaseShape.ramp 13 10⟩,
   ⟨"Entrainment", 180, 1080, PhaseShape.sine 10 2 60⟩,
   ⟨"Recognition", 1080, 1200, PhaseShape.ramp 13 38⟩]

namespace ProtocolRunner

/-- ProtocolRunner._getCurrentPhase (src/unnamed/part_000 lines 86-93): return
the first phase with `elapsedSec < phase.endSec`, defaulting to the last
phase. -/
def _getCurrentPhase (elapsedSec : ℚ) : ProtocolPhase :=
  match PROTOCOL_PHASES.find? (fun p => decide (elapsedSec < p.endSec)) with
  | some p => p
  | none => PROTOCOL_PHASES.getLastD ⟨"", 0, 0, PhaseShape.ramp 0 0⟩

/-- ProtocolRunner._computeFrequency (src/unnamed/part_000 lines 101-113):
for a ramp phase, normalized time `t = (elapsedSec - startSec)/(endSec -
startSec)`, cosine easing `(1 - cos(π t))/2`, `freqStart + (freqEnd -
freqStart) * eased`; for the sine phase, `center - amplitude *
sin(2π (1/period) (elapsedSec - startSec))`. -/
noncomputable def _computeFrequency (elapsedSec : ℚ) (phase : ProtocolPhase) : ℝ :=
  match phase.shape with
  | PhaseShape.ramp freqStart freqEnd =>
      let t : ℚ := (elapsedSec - phase.startSec) / (phase.endSec - phase.startSec)
      let eased : ℝ := (1 - Real.cos (Real.pi * (t : ℝ))) / 2
      (freqStart : ℝ) + ((freqEnd : ℝ) - (freqStart : ℝ)) * eased
  | PhaseShape.sine center amplitude period =>
      let phaseTime : ℚ := elapsedSec - phase.startSec
      (center : ℝ) - (amplitude : ℝ) *
        Real.sin (2 * Real.pi * (1 / (period : ℝ)) * (phaseTime : ℝ))

end ProtocolRunner

/-- An observable effect of one `ProtocolRunner._tick` call: a method call on
the downstream controller, an observer notification, stopping the runner's own
interval, or the completion notification. -/
inductive TickEffect where
  | controllerCall (method : String) (freq : ℝ)
  | notify (elapsed : ℚ) (phaseName : String) (freq : ℝ)
  | stopSelf
  | notifyComplete

namespace ProtocolRunner

/-- ProtocolRunner._tick (src/unnamed/part_000 lines 62-79) as the list of
effects it performs for a given elapsed time: if `elapsedSec >=
PROTOCOL_DURATION`, stop and notify completion; otherwise compute the phase
and frequency, call `controller.rampPulseFrequency(freq)` and notify the
observer with `(elapsed, phase.name, freq)`. -/
noncomputable def _tick (elapsedSec : ℚ) : List TickEffect :=
  if elapsedSec ≥ PROTOCOL_DURATION then
    [TickEffect.stopSelf, TickEffect.notifyComplete]
  else
    let phase := _getCurrentPhase elapsedSec
    let freq := _computeFrequency elapsedSec phase
    [TickEffect.controllerCall "rampPulseFrequency" freq,
     TickEffect.notify elapsedSec phase.name freq]

end ProtocolRunner

/-- The method and getter names defined by class SyncController in
src/js/sync-controller.js. -/
def syncControllerMethods : List String :=
  ["constructor", "_ensureAudioContext", "start", "stop", "setMode",
   "setPulseFrequency", "setCarrierFrequency", "active"]

/-! ### Basic lemmas about the JS remainder -/

/-- For a non-negative dividend, the JS remainder by 1 agrees with the
mathematical fractional part. -/
lemma jsRem_one_of_nonneg (x : ℚ) (hx : 0 ≤ x) : jsRem x 1 = Int.fract x := by
  unfold jsRem truncQ
  rw [div_one, if_pos hx]
  unfold Int.fract
  ring

/-! ### Lemmas about parameter reads, the phase wrap, and list access -/

/-- Element `i` of a mapped `List.range` with default. -/
lemma getD_map_range (n i : ℕ) (hi : i < n) (f : ℕ → ℝ) :
    ((List.range n).map f).getD i 0 = f i := by
  rw [List.getD_eq_getElem?_getD, List.getElem?_map, List.getElem?_range hi]
  rfl

/-- `List.getD` with default 0 on a list of non-negative rationals is
non-negative. -/
lemma getD_nonneg (arr : List ℚ) (h : ∀ x ∈ arr, 0 ≤ x) (i : ℕ) :
    0 ≤ arr.getD i 0 := by
  rw [List.getD_eq_getElem?_getD]
  cases harr : arr[i]? with
  | none => simp
  | some v =>
    simp only [Option.getD_some]
    exact h v (List.getElem?_mem harr)

/-- Reading an a-rate parameter array of non-negative values is non-negative. -/
lemma paramAt_nonneg (arr : List ℚ) (h : ∀ x ∈ arr, 0 ≤ x) (i : ℕ) :
    0 ≤ paramAt arr i := by
  unfold paramAt
  split_ifs <;> exact getD_nonneg arr h _

/-- The wrap keeps a non-negative phase inside [0, 1). -/
lemma wrapPhase_mem (x : ℚ) (hx : 0 ≤ x) : 0 ≤ wrapPhase x ∧ wrapPhase x < 1 := by
  unfold wrapPhase
  split_ifs with h
  · rw [show x - (⌊x⌋ : ℚ) = Int.fract x from rfl]
    exact ⟨Int.fract_nonneg x, Int.fract_lt_one x⟩
  · exact ⟨hx, not_le.mp h⟩

/-- The wrap subtracts an integer. -/
lemma wrapPhase_sub_int (x : ℚ) : ∃ m : ℤ, wrapPhase x = x - m := by
  unfold wrapPhase
  split_ifs
  · exact ⟨⌊x⌋, rfl⟩
  · exact ⟨0, by simp⟩

/-- Sine of `2π` times a rational is invariant under subtracting an integer
from the rational. -/
lemma sin_two_pi_cast_sub_int (q : ℚ) (k : ℤ) :
    Real.sin (2 * Real.pi * ((q - k : ℚ) : ℝ)) = Real.sin (2 * Real.pi * (q : ℝ)) := by
  rw [show (2 * Real.pi * ((q - k : ℚ) : ℝ)) =
      2 * Real.pi * (q : ℝ) + (-k : ℤ) * (2 * Real.pi) by push_cast; ring,
    Real.sin_add_int_mul_two_pi]

/-- The wrapped binaural phase accumulators differ from the unwrapped
multiplicative reference (initial phase plus the sum of the per-sample
increments) by integers. -/
lemma binaural_stateAt_ref (sr : ℚ) (cfArr bfArr : List ℚ) (st0 : BinauralState)
    (i : ℕ) :
    ∃ kl kr : ℤ,
      (BinauralWorkletProcessor.stateAt sr cfArr bfArr st0 i).leftPhase =
        st0.leftPhase + (∑ j ∈ Finset.range i, paramAt cfArr j / sr) - kl ∧
      (BinauralWorkletProcessor.stateAt sr cfArr bfArr st0 i).rightPhase =
        st0.rightPhase + (∑ j ∈ Finset.range i, (paramAt cfArr j + paramAt bfArr j) / sr) - kr := by
  induction i with
  | zero =>
    exact ⟨0, 0, by simp [BinauralWorkletProcessor.stateAt],
      by simp [BinauralWorkletProcessor.stateAt]⟩
  | succ i ih =>
    obtain ⟨kl, kr, hl, hr⟩ := ih
    obtain ⟨ml, hml⟩ := wrapPhase_sub_int
      ((BinauralWorkletProcessor.stateAt sr cfArr bfArr st0 i).leftPhase + paramAt cfArr i / sr)
    obtain ⟨mr, hmr⟩ := wrapPhase_sub_int
      ((BinauralWorkletProcessor.stateAt sr cfArr bfArr st0 i).rightPhase +
        (paramAt cfArr i + paramAt bfArr i) / sr)
    refine ⟨kl + ml, kr + mr, ?_, ?_⟩
    · show wrapPhase ((BinauralWorkletProcessor.stateAt sr cfArr bfArr st0 i).leftPhase +
        paramAt cfArr i / sr) = _
      rw [hml, hl, Finset.sum_range_succ]
      push_cast
      ring
    · show wrapPhase ((BinauralWorkletProcessor.stateAt sr cfArr bfArr st0 i).rightPhase +
        (paramAt cfArr i + paramAt bfArr i) / sr) = _
      rw [hmr, hr, Finset.sum_range_succ]
      push_cast
      ring

section ScratchChecks

example : jsRem (-1/2) 1 = -1/2 := by
  have h : ⌈(-1/2 : ℚ)⌉ = 0 := by rw [Int.ceil_eq_iff]; norm_num
  norm_num [jsRem, truncQ, h]

example : jsRem (7/2) 1 = 1/2 := by
  have h : ⌊(7/2 : ℚ)⌋ = 3 := by rw [Int.floor_eq_iff]; norm_num
  norm_num [jsRem, truncQ, h]

example : pulseGate 48000 24000 0 7 (1/2) = 1 := by
  have h : ⌈(-(7/2) : ℚ)⌉ = -3 := by rw [Int.ceil_eq_iff]; norm_num
  norm_num [pulseGate, jsRem, truncQ, h]

example : specIsOn 0 24000 (7/48000) (1/2) = false := by norm_num [specIsOn]

end ScratchChecks


/-! ### Claim C5 -/

/-- C5: with the four configured phases, `_getCurrentPhase` returns Adaptation
at t=0, Transition at t=120, Entrainment at t=180 and Recognition at t=1080,
and `_computeFrequency` returns exactly 38 Hz at t=0, 25.5 Hz at t=60, 8 Hz at
t=195 (trough), 12 Hz at t=225 (peak) and 25.5 Hz at t=1140 (exact equality,
hence within the claimed 0.01 Hz). -/
theorem protocol_numeric_contract :
    (ProtocolRunner._getCurrentPhase 0).name = "Adaptation" ∧
    (ProtocolRunner._getCurrentPhase 120).name = "Transition" ∧
    (ProtocolRunner._getCurrentPhase 180).name = "Entrainment" ∧
    (ProtocolRunner._getCurrentPhase 1080).name = "Recognition" ∧
    ProtocolRunner._computeFrequency 0 (ProtocolRunner._getCurrentPhase 0) = 38 ∧
    ProtocolRunner._computeFrequency 60 (ProtocolRunner._getCurrentPhase 60) = 25.5 ∧
    ProtocolRunner._computeFrequency 195 (ProtocolRunner._getCurrentPhase 195) = 8 ∧
    ProtocolRunner._computeFrequency 225 (ProtocolRunner._getCurrentPhase 225) = 12 ∧
    ProtocolRunner._computeFrequency 1140 (ProtocolRunner._getCurrentPhase 1140) = 25.5 := by
  have hAd : ProtocolRunner._getCurrentPhase 0 =
      ⟨"Adaptation", 0, 120, PhaseShape.ramp 38 13⟩ := rfl
  have hAd60 : ProtocolRunner._getCurrentPhase 60 =
      ⟨"Adaptation", 0, 120, PhaseShape.ramp 38 13⟩ := rfl
  have hEn195 : ProtocolRunner._getCurrentPhase 195 =
      ⟨"Entrainment", 180, 1080, PhaseShape.sine 10 2 60⟩ := rfl
  have hEn225 : ProtocolRunner._getCurrentPhase 225 =
      ⟨"Entrainment", 180, 1080, PhaseShape.sine 10 2 60⟩ := rfl
  have hRe : ProtocolRunner._getCurrentPhase 1140 =
      ⟨"Recognition", 1080, 1200, PhaseShape.ramp 13 38⟩ := rfl
  refine ⟨rfl, rfl, rfl, rfl, ?_, ?_, ?_, ?_, ?_⟩
  · rw [hAd]
    show (38 : ℝ) + ((13 : ℝ) - 38) *
      ((1 - Real.cos (Real.pi * (((0 - 0) / (120 - 0) : ℚ) : ℝ))) / 2) = 38
    rw [show (((0 - 0) / (120 - 0) : ℚ) : ℝ) = 0 by norm_num, mul_zero, Real.cos_zero]
    norm_num
  · rw [hAd60]
    show (38 : ℝ) + ((13 : ℝ) - 38) *
      ((1 - Real.cos (Real.pi * (((60 - 0) / (120 - 0) : ℚ) : ℝ))) / 2) = 25.5
    rw [show (((60 - 0) / (120 - 0) : ℚ) : ℝ) = 1/2 by norm_num,
      show Real.pi * (1/2 : ℝ) = Real.pi / 2 by ring, Real.cos_pi_div_two]
    norm_num
  · rw [hEn195]
    show (10 : ℝ) - (2 : ℝ) *
      Real.sin (2 * Real.pi * (1 / ((60 : ℚ) : ℝ)) * (((195 - 180 : ℚ)) : ℝ)) = 8
    rw [show (2 * Real.pi * (1 / ((60 : ℚ) : ℝ)) * (((195 - 180 : ℚ)) : ℝ)) = Real.pi / 2 by
        push_cast; ring,
      Real.sin_pi_div_two]
    norm_num
  · rw [hEn225]
    show (10 : ℝ) - (2 : ℝ) *
      Real.sin (2 * Real.pi * (1 / ((60 : ℚ) : ℝ)) * (((225 - 180 : ℚ)) : ℝ)) = 12
    rw [show (2 * Real.pi * (1 / ((60 : ℚ) : ℝ)) * (((225 - 180 : ℚ)) : ℝ)) =
        Real.pi / 2 + Real.pi by push_cast; ring,
      Real.sin_add_pi, Real.sin_pi_div_two]
    norm_num
  · rw [hRe]
    show (13 : ℝ) + ((38 : ℝ) - 13) *
      ((1 - Real.cos (Real.pi * (((1140 - 1080) / (1200 - 1080) : ℚ) : ℝ))) / 2) = 25.5
    rw [show (((1140 - 1080) / (1200 - 1080) : ℚ) : ℝ) = 1/2 by norm_num,
      show Real.pi * (1/2 : ℝ) = Real.pi / 2 by ring, Real.cos_pi_div_two]
    norm_num

/-! ### Claim C6 -/


/-- C6: the first protocol tick (elapsed 0, below the 1200 s duration) pushes
the computed 38 Hz frequency to the controller via a call to the method named
`rampPulseFrequency` and notifies the observer with `(0, "Adaptation", 38)` —
and calls nothing else, in particular neither `start` nor `stop` — but no
method of that name exists on `SyncController` (which only offers
`setPulseFrequency`), so with the repository's controller the push cannot
land. -/
theorem protocol_tick_targets_missing_controller_method :
    ProtocolRunner._tick 0 =
      [TickEffect.controllerCall "rampPulseFrequency" 38,
       TickEffect.notify 0 "Adaptation" 38] ∧
    "rampPulseFrequency" ∉ syncControllerMethods ∧
    "setPulseFrequency" ∈ syncControllerMethods := by
  refine ⟨?_, by decide, by decide⟩
  have hlt : ¬ ((0 : ℚ) ≥ PROTOCOL_DURATION) := by norm_num [PROTOCOL_DURATION]
  have hfreq : ProtocolRunner._computeFrequency 0 (ProtocolRunner._getCurrentPhase 0) = 38 := by
    rw [show ProtocolRunner._getCurrentPhase 0 =
        ⟨"Adaptation", 0, 120, PhaseShape.ramp 38 13⟩ from rfl]
    show (38 : ℝ) + ((13 : ℝ) - 38) *
      ((1 - Real.cos (Real.pi * (((0 - 0) / (120 - 0) : ℚ) : ℝ))) / 2) = 38
    rw [show (((0 - 0) / (120 - 0) : ℚ) : ℝ) = 0 by norm_num, mul_zero, Real.cos_zero]
    norm_num
  unfold ProtocolRunner._tick
  rw [if_neg hlt]
  simp only [hfreq]
  rfl

/-! ### Claim C1 -/

/-- C1 (counterexample): the claim asserts that for every time strictly earlier
than the start reference the computed state is OFF, including for the worklet's
per-sample pulse gate.  At sample frame 0 with start frame 24000 (half a second
before the start at 48 kHz), pulse frequency 7 Hz and duty cycle 1/2, the
reference Phase Clock is OFF but the worklet gate is 1 (ON): the worklet code
has no `elapsed < 0` guard and the JS remainder of a negative product is
non-positive, hence always below the positive duty cycle. -/
theorem worklet_gate_on_before_start_frame :
    (0 : ℤ) < 24000 ∧
    pulseGate 48000 24000 0 7 (1/2) = 1 ∧
    specIsOn 0 24000 (7/48000) (1/2) = false := by
  refine ⟨by norm_num, ?_, by norm_num [specIsOn]⟩
  have h : ⌈(-(7/2) : ℚ)⌉ = -3 := by rw [Int.ceil_eq_iff]; norm_num
  norm_num [pulseGate, jsRem, truncQ, h]

/-- C1 (amended): for every (time, startTime, freq ≥ 0, dutyCycle), the pulse
state computed by `AudioEngine.getCurrentPulseState` while running and by
`VisualEngine.getPulseState` equals the reference definition
`phase = ((time - startTime) * freq) mod 1.0`, `isOn = phase < dutyCycle`,
with OFF for `time < startTime`; the worklet per-sample gate equals the same
reference (with start frame as startTime, sample frame as time, and frequency
`pulseFreq / sampleRate` per frame) for every frame at or after the start
frame — but not before it, where the gate reads ON instead of OFF. -/
theorem phase_clock_contract_amended (f d : ℚ) (hf : 0 ≤ f) :
    (∀ (c s t : ℚ) (n : ℕ) (w : Bool),
      AudioEngine.getCurrentPulseState ⟨c, f, d, s, n, true, w⟩ t = specIsOn t s f d) ∧
    (∀ s t : ℚ, VisualEngine.getPulseState ⟨f, d, s⟩ t = specIsOn t s f d) ∧
    (∀ (sr : ℚ) (startFrame frame : ℤ), 0 < sr → startFrame ≤ frame →
      pulseGate sr startFrame frame f d =
        if specIsOn (frame : ℚ) (startFrame : ℚ) (f / sr) d then 1 else 0) := by
  have key : ∀ s t : ℚ,
      (if t - s < 0 then (false : Bool) else decide (jsRem ((t - s) * f) 1 < d)) =
        specIsOn t s f d := by
    intro s t
    unfold specIsOn specPhase
    by_cases h : t < s
    · rw [if_pos (by linarith : t - s < 0), if_pos h]
    · have h0 : (0:ℚ) ≤ t - s := by linarith [not_lt.mp h]
      rw [if_neg (not_lt.mpr h0), if_neg h,
        jsRem_one_of_nonneg _ (mul_nonneg h0 hf)]
  refine ⟨?_, ?_, ?_⟩
  · intro c s t n w
    simpa [AudioEngine.getCurrentPulseState] using key s t
  · intro s t
    simpa [VisualEngine.getPulseState] using key s t
  · intro sr sf fr hsr hle
    have hsub : (0:ℚ) ≤ (fr : ℚ) - (sf : ℚ) := by
      rw [sub_nonneg]
      exact_mod_cast hle
    have h0 : (0:ℚ) ≤ ((fr : ℚ) - (sf : ℚ)) / sr := div_nonneg hsub hsr.le
    have hspec : specIsOn (fr : ℚ) (sf : ℚ) (f / sr) d =
        decide (Int.fract (((fr : ℚ) - (sf : ℚ)) * (f / sr)) < d) := by
      unfold specIsOn specPhase
      rw [if_neg (not_lt.mpr (show ((sf : ℚ)) ≤ (fr : ℚ) by exact_mod_cast hle))]
    show (if jsRem (((fr : ℚ) - (sf : ℚ)) / sr * f) 1 < d then (1:ℚ) else 0) = _
    rw [jsRem_one_of_nonneg _ (mul_nonneg h0 hf), hspec,
      show ((fr : ℚ) - sf) / sr * f = ((fr : ℚ) - sf) * (f / sr) by ring]
    by_cases hlt : Int.fract (((fr : ℚ) - sf) * (f / sr)) < d
    · simp [hlt]
    · simp [hlt]

/-- C1 (witness): the amended contract applied at freq 10 Hz, duty 1/2,
start time 5 s, query time 5 + 1/40 s, and at the worklet gate for
start frame 24000, frame 36000, 48 kHz. -/
theorem phase_clock_contract_amended_witness :
    (0 : ℚ) ≤ 10 ∧
    AudioEngine.getCurrentPulseState ⟨250, 10, 1/2, 5, 0, true, false⟩ (5 + 1/40) =
      specIsOn (5 + 1/40) 5 10 (1/2) ∧
    pulseGate 48000 24000 36000 10 (1/2) =
      (if specIsOn ((36000 : ℤ) : ℚ) ((24000 : ℤ) : ℚ) (10 / 48000) (1/2) then 1 else 0) :=
  ⟨by norm_num,
   (phase_clock_contract_amended 10 (1/2) (by norm_num)).1 250 5 (5 + 1/40) 0 false,
   (phase_clock_contract_amended 10 (1/2) (by norm_num)).2.2 48000 24000 36000
     (by norm_num) (by norm_num)⟩


/-- Every event emitted for a single pulse index has a timestamp strictly
after `now`. -/
lemma pulseEventsFor_time_pos (s p o now : ℚ) (i : ℕ) :
    ∀ e ∈ pulseEventsFor s p o now i, now < e.time := by
  intro e he
  unfold pulseEventsFor at he
  simp only [] at he
  split_ifs at he with hend hstart
  · simp only [List.cons_append, List.nil_append, List.mem_cons,
      List.mem_singleton, List.not_mem_nil, or_false] at he
    rcases he with rfl | rfl
    · exact hstart
    · exact hend
  · simp only [List.nil_append, List.mem_singleton, List.mem_cons,
      List.not_mem_nil, or_false] at he
    subst he
    exact hend
  · exact absurd he (List.not_mem_nil e)

/-- Characterization of the scheduling loop: with a positive period and enough
fuel to reach the break, the loop never decreases the index, advances it past
exactly the consecutive indices whose `pulseStart` does not exceed
`scheduleUntil`, and emits, in index order, exactly the per-index events. -/
lemma schedLoop_spec (s p o now bnd : ℚ) (hp : 0 < p) :
    ∀ (fuel i0 : ℕ), bnd < s + ((i0 + fuel : ℕ) : ℚ) * p →
      i0 ≤ (schedLoop s p o now bnd fuel i0).2 ∧
      (∀ i : ℕ, i0 ≤ i →
        (s + (i : ℚ) * p ≤ bnd ↔ i < (schedLoop s p o now bnd fuel i0).2)) ∧
      (schedLoop s p o now bnd fuel i0).1 =
        (List.range' i0 ((schedLoop s p o now bnd fuel i0).2 - i0)).flatMap
          (pulseEventsFor s p o now) := by
  intro fuel
  induction fuel with
  | zero =>
    intro i0 h
    refine ⟨le_refl _, ?_, by simp [schedLoop]⟩
    intro i hi
    simp only [schedLoop]
    constructor
    · intro hle
      exfalso
      have hmono : s + ((i0 + 0 : ℕ) : ℚ) * p ≤ s + (i : ℚ) * p := by
        have : ((i0 + 0 : ℕ) : ℚ) ≤ (i : ℚ) := by exact_mod_cast by omega
        nlinarith
      linarith
    · omega
  | succ fuel ih =>
    intro i0 h
    by_cases hb : s + (i0 : ℚ) * p > bnd
    · have hres : schedLoop s p o now bnd (fuel + 1) i0 = ([], i0) := by
        simp [schedLoop, hb]
      rw [hres]
      refine ⟨le_refl _, ?_, by simp⟩
      intro i hi
      constructor
      · intro hle
        exfalso
        have hmono : s + (i0 : ℚ) * p ≤ s + (i : ℚ) * p := by
          have : (i0 : ℚ) ≤ (i : ℚ) := by exact_mod_cast hi
          nlinarith
        linarith
      · omega
    · have hfuel : bnd < s + (((i0 + 1) + fuel : ℕ) : ℚ) * p := by
        have : ((i0 + 1) + fuel : ℕ) = (i0 + (fuel + 1) : ℕ) := by omega
        rw [this]
        exact h
      obtain ⟨ih1, ih2, ih3⟩ := ih (i0 + 1) hfuel
      have hres : schedLoop s p o now bnd (fuel + 1) i0 =
          (pulseEventsFor s p o now i0 ++ (schedLoop s p o now bnd fuel (i0 + 1)).1,
           (schedLoop s p o now bnd fuel (i0 + 1)).2) := by
        simp [schedLoop, hb]
      rw [hres]
      refine ⟨by omega, ?_, ?_⟩
      · intro i hi
        rcases Nat.eq_or_lt_of_le hi with heq | hlt
        · subst heq
          exact iff_of_true (not_lt.mp hb) (by omega)
        · exact ih2 i (by omega)
      · have hcnt : (schedLoop s p o now bnd fuel (i0 + 1)).2 - i0 =
            ((schedLoop s p o now bnd fuel (i0 + 1)).2 - (i0 + 1)) + 1 := by omega
        rw [hcnt,
          show List.range' i0 (((schedLoop s p o now bnd fuel (i0 + 1)).2 - (i0 + 1)) + 1) =
            i0 :: List.range' (i0 + 1) ((schedLoop s p o now bnd fuel (i0 + 1)).2 - (i0 + 1))
            from rfl,
          List.flatMap_cons, ih3]

/-- The updated state returned by `_schedulePulses` differs from the input
state only in `_nextPulseIndex`. -/
lemma schedulePulses_state_shape (st : AudioEngineState) (now : ℚ) (fuel : ℕ) :
    (AudioEngine._schedulePulses st now fuel).2 =
      { st with nextPulseIndex := (AudioEngine._schedulePulses st now fuel).2.nextPulseIndex } := by
  unfold AudioEngine._schedulePulses
  split_ifs <;> rfl

/-- If the next pulse start already lies beyond the lookahead window, a fill
call (with any positive fuel) emits nothing and leaves the state unchanged. -/
lemma schedulePulses_break (st : AudioEngineState) (now : ℚ) (m : ℕ)
    (hrun : st.running = true) (hw : st.useWorklet = false)
    (hbreak : st.startTime + (st.nextPulseIndex : ℚ) * (1 / st.pulseFreq) >
      now + SCHEDULER_LOOKAHEAD_S) :
    AudioEngine._schedulePulses st now (m + 1) = ([], st) := by
  unfold AudioEngine._schedulePulses
  rw [show (!st.running || st.useWorklet) = false by rw [hrun, hw]; rfl]
  simp only [Bool.false_eq_true, if_false, schedLoop]
  rw [if_pos hbreak]

/-- Full characterization of one `_schedulePulses` call on a running legacy
engine, for use by the claims about filling, idempotent refill and
frequency-change re-anchoring. -/
lemma schedulePulses_spec (st : AudioEngineState) (now : ℚ) (fuel : ℕ)
    (hrun : st.running = true) (hw : st.useWorklet = false)
    (hf : 0 < st.pulseFreq)
    (hfuel : now + SCHEDULER_LOOKAHEAD_S <
      st.startTime + ((st.nextPulseIndex + fuel : ℕ) : ℚ) * (1 / st.pulseFreq)) :
    st.nextPulseIndex ≤ (AudioEngine._schedulePulses st now fuel).2.nextPulseIndex ∧
    (∀ i : ℕ, st.nextPulseIndex ≤ i →
      (st.startTime + (i : ℚ) * (1 / st.pulseFreq) ≤ now + SCHEDULER_LOOKAHEAD_S ↔
        i < (AudioEngine._schedulePulses st now fuel).2.nextPulseIndex)) ∧
    (AudioEngine._schedulePulses st now fuel).1 =
      (List.range' st.nextPulseIndex
        ((AudioEngine._schedulePulses st now fuel).2.nextPulseIndex - st.nextPulseIndex)).flatMap
        (pulseEventsFor st.startTime (1 / st.pulseFreq)
          ((1 / st.pulseFreq) * st.dutyCycle) now) := by
  have hp : 0 < 1 / st.pulseFreq := by positivity
  have hguard : (!st.running || st.useWorklet) = false := by rw [hrun, hw]; rfl
  have hres : AudioEngine._schedulePulses st now fuel =
      ((schedLoop st.startTime (1 / st.pulseFreq) ((1 / st.pulseFreq) * st.dutyCycle)
          now (now + SCHEDULER_LOOKAHEAD_S) fuel st.nextPulseIndex).1,
       { st with nextPulseIndex :=
          (schedLoop st.startTime (1 / st.pulseFreq) ((1 / st.pulseFreq) * st.dutyCycle)
            now (now + SCHEDULER_LOOKAHEAD_S) fuel st.nextPulseIndex).2 }) := by
    unfold AudioEngine._schedulePulses
    rw [hguard]
    rfl
  obtain ⟨h1, h2, h3⟩ := schedLoop_spec st.startTime (1 / st.pulseFreq)
    ((1 / st.pulseFreq) * st.dutyCycle) now (now + SCHEDULER_LOOKAHEAD_S) hp
    fuel st.nextPulseIndex hfuel
  rw [hres]
  exact ⟨h1, h2, h3⟩

/-! ### Claim C3 -/

/-- C3: one `_schedulePulses` call on a running legacy engine with pulse
frequency `f > 0` emits gate events exactly for the consecutive indices
`i ≥ _nextPulseIndex` whose `pulseStart = startTime + i * (1/f)` does not
exceed `now + lookahead`; per index the events are those of `pulseEventsFor`
(gate-off at `pulseEnd` when `pulseEnd > now`, gate-on at `pulseStart` only
when `pulseStart > now`, nothing when `pulseEnd ≤ now`); every emitted event
has a timestamp strictly after `now`; the index advances past every examined
pulse and nothing else in the state changes; and the on-duration
`(1/f) * dutyCycle` equals `dutyCycle / f`. -/
theorem schedule_pulses_fill (st : AudioEngineState) (now : ℚ) (fuel : ℕ)
    (hrun : st.running = true) (hw : st.useWorklet = false)
    (hf : 0 < st.pulseFreq)
    (hfuel : now + SCHEDULER_LOOKAHEAD_S <
      st.startTime + ((st.nextPulseIndex + fuel : ℕ) : ℚ) * (1 / st.pulseFreq)) :
    st.nextPulseIndex ≤ (AudioEngine._schedulePulses st now fuel).2.nextPulseIndex ∧
    (∀ i : ℕ, st.nextPulseIndex ≤ i →
      (st.startTime + (i : ℚ) * (1 / st.pulseFreq) ≤ now + SCHEDULER_LOOKAHEAD_S ↔
        i < (AudioEngine._schedulePulses st now fuel).2.nextPulseIndex)) ∧
    (AudioEngine._schedulePulses st now fuel).1 =
      (List.range' st.nextPulseIndex
        ((AudioEngine._schedulePulses st now fuel).2.nextPulseIndex - st.nextPulseIndex)).flatMap
        (pulseEventsFor st.startTime (1 / st.pulseFreq)
          ((1 / st.pulseFreq) * st.dutyCycle) now) ∧
    (∀ e ∈ (AudioEngine._schedulePulses st now fuel).1, now < e.time) ∧
    (AudioEngine._schedulePulses st now fuel).2 =
      { st with nextPulseIndex := (AudioEngine._schedulePulses st now fuel).2.nextPulseIndex } ∧
    (1 / st.pulseFreq) * st.dutyCycle = st.dutyCycle / st.pulseFreq := by
  obtain ⟨h1, h2, h3⟩ := schedulePulses_spec st now fuel hrun hw hf hfuel
  refine ⟨h1, h2, h3, ?_, schedulePulses_state_shape st now fuel, by ring⟩
  intro e he
  rw [h3] at he
  rcases List.mem_flatMap.mp he with ⟨i, _, hei⟩
  exact pulseEventsFor_time_pos _ _ _ _ _ e hei

/-- C3 (witness): the fill theorem applied to a concrete running engine with
pulse frequency 1 Hz anchored at 0, filling at `now = 0` with fuel 4. -/
theorem schedule_pulses_fill_witness :
    ((⟨250, 1, 1/2, 0, 0, true, false⟩ : AudioEngineState).running = true) ∧
    (0 : ℚ) < (⟨250, 1, 1/2, 0, 0, true, false⟩ : AudioEngineState).pulseFreq ∧
    (∀ e ∈ (AudioEngine._schedulePulses ⟨250, 1, 1/2, 0, 0, true, false⟩ 0 4).1,
      (0 : ℚ) < e.time) :=
  ⟨rfl, by norm_num,
   (schedule_pulses_fill ⟨250, 1, 1/2, 0, 0, true, false⟩ 0 4 rfl rfl (by norm_num)
     (by norm_num [SCHEDULER_LOOKAHEAD_S])).2.2.2.1⟩

/-! ### Claim C7 -/

/-- C7: refilling is idempotent and never schedules a pulse index twice.
After a fill at `now1`, (a) an immediate re-fill at the same `now1` (with any
positive fuel) emits no events and leaves the state unchanged; (b) a later
fill at `now2 ≥ now1` resumes from the persisted `_nextPulseIndex`, emitting
events only for indices from that index on; and (c) no pulse index examined by
the first call is examined again by the second. -/
theorem refill_idempotent_no_duplicates (st : AudioEngineState)
    (now1 now2 : ℚ) (fuel1 fuel2 : ℕ)
    (hrun : st.running = true) (hw : st.useWorklet = false) (hf : 0 < st.pulseFreq)
    (h12 : now1 ≤ now2)
    (hfuel1 : now1 + SCHEDULER_LOOKAHEAD_S <
      st.startTime + ((st.nextPulseIndex + fuel1 : ℕ) : ℚ) * (1 / st.pulseFreq))
    (hfuel2 : now2 + SCHEDULER_LOOKAHEAD_S <
      st.startTime + ((st.nextPulseIndex + fuel2 : ℕ) : ℚ) * (1 / st.pulseFreq)) :
    (∀ m : ℕ,
      AudioEngine._schedulePulses (AudioEngine._schedulePulses st now1 fuel1).2 now1 (m + 1) =
        ([], (AudioEngine._schedulePulses st now1 fuel1).2)) ∧
    ((AudioEngine._schedulePulses (AudioEngine._schedulePulses st now1 fuel1).2 now2 fuel2).1 =
      (List.range' (AudioEngine._schedulePulses st now1 fuel1).2.nextPulseIndex
        ((AudioEngine._schedulePulses (AudioEngine._schedulePulses st now1 fuel1).2
            now2 fuel2).2.nextPulseIndex -
          (AudioEngine._schedulePulses st now1 fuel1).2.nextPulseIndex)).flatMap
        (pulseEventsFor (AudioEngine._schedulePulses st now1 fuel1).2.startTime
          (1 / (AudioEngine._schedulePulses st now1 fuel1).2.pulseFreq)
          ((1 / (AudioEngine._schedulePulses st now1 fuel1).2.pulseFreq) *
            (AudioEngine._schedulePulses st now1 fuel1).2.dutyCycle) now2)) ∧
    (∀ i : ℕ,
      i ∈ List.range' st.nextPulseIndex
            ((AudioEngine._schedulePulses st now1 fuel1).2.nextPulseIndex - st.nextPulseIndex) →
      i ∉ List.range' (AudioEngine._schedulePulses st now1 fuel1).2.nextPulseIndex
            ((AudioEngine._schedulePulses (AudioEngine._schedulePulses st now1 fuel1).2
                now2 fuel2).2.nextPulseIndex -
              (AudioEngine._schedulePulses st now1 fuel1).2.nextPulseIndex)) := by
  have hp : 0 < 1 / st.pulseFreq := by positivity
  have hshape := schedulePulses_state_shape st now1 fuel1
  obtain ⟨h1a, h1b, h1c⟩ := schedulePulses_spec st now1 fuel1 hrun hw hf hfuel1
  have hrun2 : (AudioEngine._schedulePulses st now1 fuel1).2.running = true := by
    rw [hshape]; exact hrun
  have hw2 : (AudioEngine._schedulePulses st now1 fuel1).2.useWorklet = false := by
    rw [hshape]; exact hw
  have hf2 : 0 < (AudioEngine._schedulePulses st now1 fuel1).2.pulseFreq := by
    rw [hshape]; exact hf
  have hfuel2A : now2 + SCHEDULER_LOOKAHEAD_S <
      (AudioEngine._schedulePulses st now1 fuel1).2.startTime +
        (((AudioEngine._schedulePulses st now1 fuel1).2.nextPulseIndex + fuel2 : ℕ) : ℚ) *
          (1 / (AudioEngine._schedulePulses st now1 fuel1).2.pulseFreq) := by
    rw [hshape]
    show now2 + SCHEDULER_LOOKAHEAD_S < st.startTime +
      (((AudioEngine._schedulePulses st now1 fuel1).2.nextPulseIndex + fuel2 : ℕ) : ℚ) *
        (1 / st.pulseFreq)
    have hmono : ((st.nextPulseIndex + fuel2 : ℕ) : ℚ) ≤
        (((AudioEngine._schedulePulses st now1 fuel1).2.nextPulseIndex + fuel2 : ℕ) : ℚ) := by
      exact_mod_cast by omega
    nlinarith
  obtain ⟨h2a, h2b, h2c⟩ := schedulePulses_spec (AudioEngine._schedulePulses st now1 fuel1).2
    now2 fuel2 hrun2 hw2 hf2 hfuel2A
  refine ⟨?_, h2c, ?_⟩
  · intro m
    have hbreak : ¬ (st.startTime +
        ((AudioEngine._schedulePulses st now1 fuel1).2.nextPulseIndex : ℚ) *
          (1 / st.pulseFreq) ≤ now1 + SCHEDULER_LOOKAHEAD_S) := by
      intro hle
      exact absurd ((h1b _ h1a).mp hle) (lt_irrefl _)
    have hgt : st.startTime +
        ((AudioEngine._schedulePulses st now1 fuel1).2.nextPulseIndex : ℚ) *
          (1 / st.pulseFreq) > now1 + SCHEDULER_LOOKAHEAD_S := not_le.mp hbreak
    refine schedulePulses_break _ now1 m hrun2 hw2 ?_
    rw [hshape]
    exact hgt
  · intro i hi1 hi2
    rw [List.mem_range'_1] at hi1 hi2
    omega

/-- C7 (witness): after filling a concrete 1 Hz engine at `now = 0`, an
immediate re-fill at the same time emits nothing and leaves the state
unchanged. -/
theorem refill_idempotent_no_duplicates_witness :
    AudioEngine._schedulePulses
        (AudioEngine._schedulePulses ⟨250, 1, 1/2, 0, 0, true, false⟩ 0 4).2 0 1 =
      ([], (AudioEngine._schedulePulses ⟨250, 1, 1/2, 0, 0, true, false⟩ 0 4).2) :=
  (refill_idempotent_no_duplicates ⟨250, 1, 1/2, 0, 0, true, false⟩ 0 1 4 5 rfl rfl
    (by norm_num) (by norm_num) (by norm_num [SCHEDULER_LOOKAHEAD_S])
    (by norm_num [SCHEDULER_LOOKAHEAD_S])).1 0


/-- Applying a pure sequence of `setValueAtTime` actions appends the
corresponding events. -/
lemma applyActions_setValues (q : List GainEvent) (evs : List GainEvent) :
    applyActions q (evs.map (fun e => GainAction.setValueAt e.gain e.time)) = q ++ evs := by
  induction evs generalizing q with
  | nil => simp [applyActions]
  | cons e rest ih =>
    simp only [List.map_cons, applyActions, List.foldl_cons]
    have : applyAction q (GainAction.setValueAt e.gain e.time) = q ++ [e] := rfl
    rw [this]
    simpa [applyActions] using ih (q ++ [e])

/-! ### Claim C4 -/

/-- C4: frequency-change re-anchoring on the running legacy path.  After
`setPulseFrequency(f2)` at time `t0`: the new state has `startTime = t0` and
`pulseFreq = f2`; the device queue becomes exactly the old events strictly
before `t0` (everything at or after `t0` cancelled), then the forced GAIN_OFF
at `t0`, then the events of a fresh fill anchored at `t0` with index 0 — all
of which have timestamps strictly after `t0`; and `getCurrentPulseState(t0)`
immediately reads ON (phase 0 at the new frequency, duty cycle positive). -/
theorem set_pulse_frequency_reanchors (st : AudioEngineState) (f2 t0 : ℚ)
    (fuel : ℕ) (q : List GainEvent)
    (hrun : st.running = true) (hw : st.useWorklet = false)
    (hf : 0 < f2) (hd : 0 < st.dutyCycle)
    (hfuel : SCHEDULER_LOOKAHEAD_S < (fuel : ℚ) * (1 / f2)) :
    (AudioEngine.setPulseFrequencyLegacy st f2 t0 fuel).2.startTime = t0 ∧
    (AudioEngine.setPulseFrequencyLegacy st f2 t0 fuel).2.pulseFreq = f2 ∧
    applyActions q (AudioEngine.setPulseFrequencyLegacy st f2 t0 fuel).1 =
      q.filter (fun e => decide (e.time < t0)) ++ [⟨GAIN_OFF, t0⟩] ++
        (AudioEngine._schedulePulses
          { st with pulseFreq := f2, startTime := t0, nextPulseIndex := 0 } t0 fuel).1 ∧
    (∀ e ∈ (AudioEngine._schedulePulses
        { st with pulseFreq := f2, startTime := t0, nextPulseIndex := 0 } t0 fuel).1,
      t0 < e.time) ∧
    AudioEngine.getCurrentPulseState (AudioEngine.setPulseFrequencyLegacy st f2 t0 fuel).2 t0 =
      true := by
  set st2 : AudioEngineState :=
    { st with pulseFreq := f2, startTime := t0, nextPulseIndex := 0 } with hst2
  have hrun2 : st2.running = true := hrun
  have hw2 : st2.useWorklet = false := hw
  have hfuel2 : t0 + SCHEDULER_LOOKAHEAD_S <
      st2.startTime + ((st2.nextPulseIndex + fuel : ℕ) : ℚ) * (1 / st2.pulseFreq) := by
    show t0 + SCHEDULER_LOOKAHEAD_S < t0 + ((0 + fuel : ℕ) : ℚ) * (1 / f2)
    have : ((0 + fuel : ℕ) : ℚ) = (fuel : ℚ) := by norm_num
    rw [this]
    linarith
  obtain ⟨h1, h2, h3⟩ := schedulePulses_spec st2 t0 fuel hrun2 hw2 hf hfuel2
  have hshape := schedulePulses_state_shape st2 t0 fuel
  have hres : AudioEngine.setPulseFrequencyLegacy st f2 t0 fuel =
      (GainAction.cancelFrom t0 :: GainAction.setValueAt GAIN_OFF t0 ::
        (AudioEngine._schedulePulses st2 t0 fuel).1.map
          (fun e => GainAction.setValueAt e.gain e.time),
       (AudioEngine._schedulePulses st2 t0 fuel).2) := by
    simp only [AudioEngine.setPulseFrequencyLegacy, hrun, Bool.not_true,
      Bool.false_eq_true, if_false]
    rw [hst2, hrun]
  have htime : ∀ e ∈ (AudioEngine._schedulePulses st2 t0 fuel).1, t0 < e.time := by
    intro e he
    rw [h3] at he
    rcases List.mem_flatMap.mp he with ⟨i, _, hei⟩
    exact pulseEventsFor_time_pos _ _ _ _ _ e hei
  refine ⟨?_, ?_, ?_, htime, ?_⟩
  · rw [hres, hshape]
  · rw [hres, hshape]
  · rw [hres]
    show applyActions (applyAction (applyAction q (GainAction.cancelFrom t0))
        (GainAction.setValueAt GAIN_OFF t0))
        ((AudioEngine._schedulePulses st2 t0 fuel).1.map
          (fun e => GainAction.setValueAt e.gain e.time)) = _
    rw [applyActions_setValues]
    rfl
  · rw [hres, hshape]
    show AudioEngine.getCurrentPulseState
      { st2 with nextPulseIndex := (AudioEngine._schedulePulses st2 t0 fuel).2.nextPulseIndex }
      t0 = true
    unfold AudioEngine.getCurrentPulseState
    rw [show (!({ st2 with nextPulseIndex :=
        (AudioEngine._schedulePulses st2 t0 fuel).2.nextPulseIndex } :
        AudioEngineState).running) = false by rw [hrun2]; rfl]
    simp only [Bool.false_eq_true, if_false]
    have hj : jsRem 0 1 = 0 := by norm_num [jsRem, truncQ]
    simp only [sub_self, zero_mul, hj, decide_eq_true_eq]
    rw [if_neg (lt_irrefl (0 : ℚ))]
    simpa using hd

/-- C4 (witness): re-anchoring applied to a concrete running engine (old
frequency 40 Hz, new frequency 1 Hz) at `t0 = 100` with one stale event at
time 150 in the queue. -/
theorem set_pulse_frequency_reanchors_witness :
    (AudioEngine.setPulseFrequencyLegacy ⟨250, 40, 1/2, 0, 37, true, false⟩ 1 100 4).2.startTime =
      100 ∧
    AudioEngine.getCurrentPulseState
      (AudioEngine.setPulseFrequencyLegacy ⟨250, 40, 1/2, 0, 37, true, false⟩ 1 100 4).2 100 =
      true :=
  ⟨(set_pulse_frequency_reanchors ⟨250, 40, 1/2, 0, 37, true, false⟩ 1 100 4 [⟨1, 150⟩]
      rfl rfl (by norm_num) (by norm_num) (by norm_num [SCHEDULER_LOOKAHEAD_S])).1,
   (set_pulse_frequency_reanchors ⟨250, 40, 1/2, 0, 37, true, false⟩ 1 100 4 [⟨1, 150⟩]
      rfl rfl (by norm_num) (by norm_num) (by norm_num [SCHEDULER_LOOKAHEAD_S])).2.2.2.2⟩

/-! ### Claim C2 -/

/-- C2: with the same startTime, pulseFreq and dutyCycle field values, a
running `AudioEngine.getCurrentPulseState` and `VisualEngine.getPulseState`
are extensionally the same boolean function of the shared time reference. -/
theorem audio_visual_pulse_state_agree (c f d s t : ℚ) (n : ℕ) (w : Bool) :
    AudioEngine.getCurrentPulseState ⟨c, f, d, s, n, true, w⟩ t =
      VisualEngine.getPulseState ⟨f, d, s⟩ t := by
  simp [AudioEngine.getCurrentPulseState, VisualEngine.getPulseState]

/-! ### Claim C8 -/

/-- C8: for an active binaural process() block, sample `i` of the left channel
equals `sin(2π · leftPhase)` where the left phase is the initial phase advanced
by `carrierFreq/sampleRate` per sample, and sample `i` of the right channel
equals `sin(2π · rightPhase)` advanced by `(carrierFreq + beatFreq)/sampleRate`
per sample; the wrap only subtracts whole cycles, so the samples equal the
sines of the unwrapped accumulated phases.  No gate factor appears in either
channel: both are continuous tones. -/
theorem binaural_per_sample_generation (a sr : ℚ) (cfArr bfArr : List ℚ)
    (n : ℕ) (st0 : BinauralState) (i : ℕ) (ha : a ≥ 1/2) (hi : i < n) :
    (BinauralWorkletProcessor.process a sr cfArr bfArr n st0).1.1.getD i 0 =
      Real.sin (2 * Real.pi * ((st0.leftPhase : ℝ) +
        ∑ j ∈ Finset.range i, ((paramAt cfArr j : ℚ) : ℝ) / (sr : ℝ))) ∧
    (BinauralWorkletProcessor.process a sr cfArr bfArr n st0).1.2.getD i 0 =
      Real.sin (2 * Real.pi * ((st0.rightPhase : ℝ) +
        ∑ j ∈ Finset.range i, (((paramAt cfArr j : ℚ) : ℝ) + ((paramAt bfArr j : ℚ) : ℝ)) / (sr : ℝ))) := by
  have hproc : BinauralWorkletProcessor.process a sr cfArr bfArr n st0 =
      (((List.range n).map fun j =>
          Real.sin (2 * Real.pi *
            (((BinauralWorkletProcessor.stateAt sr cfArr bfArr st0 j).leftPhase : ℚ) : ℝ)),
        (List.range n).map fun j =>
          Real.sin (2 * Real.pi *
            (((BinauralWorkletProcessor.stateAt sr cfArr bfArr st0 j).rightPhase : ℚ) : ℝ))),
       BinauralWorkletProcessor.stateAt sr cfArr bfArr st0 n, true) := by
    unfold BinauralWorkletProcessor.process
    rw [if_pos ha]
  obtain ⟨kl, kr, hl, hr⟩ := binaural_stateAt_ref sr cfArr bfArr st0 i
  constructor
  · rw [hproc]
    show ((List.range n).map fun j =>
        Real.sin (2 * Real.pi *
          (((BinauralWorkletProcessor.stateAt sr cfArr bfArr st0 j).leftPhase : ℚ) : ℝ))).getD i 0 = _
    rw [getD_map_range n i hi, hl, sin_two_pi_cast_sub_int,
      show ((st0.leftPhase + (∑ j ∈ Finset.range i, paramAt cfArr j / sr) : ℚ) : ℝ) =
        (st0.leftPhase : ℝ) + ∑ j ∈ Finset.range i, ((paramAt cfArr j : ℚ) : ℝ) / (sr : ℝ) by
        push_cast; ring]
  · rw [hproc]
    show ((List.range n).map fun j =>
        Real.sin (2 * Real.pi *
          (((BinauralWorkletProcessor.stateAt sr cfArr bfArr st0 j).rightPhase : ℚ) : ℝ))).getD i 0 = _
    rw [getD_map_range n i hi, hr, sin_two_pi_cast_sub_int,
      show ((st0.rightPhase + (∑ j ∈ Finset.range i, (paramAt cfArr j + paramAt bfArr j) / sr) : ℚ) : ℝ) =
        (st0.rightPhase : ℝ) +
          ∑ j ∈ Finset.range i, (((paramAt cfArr j : ℚ) : ℝ) + ((paramAt bfArr j : ℚ) : ℝ)) / (sr : ℝ) by
        push_cast; ring]

/-- C8 (witness): the binaural generation theorem applied to a concrete active
block: 48 kHz, constant 200 Hz carrier and 10 Hz beat arrays, block of 2
samples, zero initial phases, sample 1. -/
theorem binaural_per_sample_generation_witness :
    (1 : ℚ) ≥ 1/2 ∧ (1 : ℕ) < 2 ∧
    ((BinauralWorkletProcessor.process 1 48000 [200] [10] 2 ⟨0, 0⟩).1.1.getD 1 0 =
      Real.sin (2 * Real.pi * (((⟨0, 0⟩ : BinauralState).leftPhase : ℝ) +
        ∑ j ∈ Finset.range 1, ((paramAt [200] j : ℚ) : ℝ) / ((48000 : ℚ) : ℝ)))) :=
  ⟨by norm_num, by norm_num,
   (binaural_per_sample_generation 1 48000 [200] [10] 2 ⟨0, 0⟩ 1
     (by norm_num) (by norm_num)).1⟩

/-! ### Claim C9 -/

/-- C9: with non-negative frequency parameter values (guaranteed by the
declared descriptor minimums) and a positive sample rate, every phase
accumulator — the carrier phase of the frame-based pulse worklet, the carrier
and pulse phases of the accumulator revision, and the left and right phases of
the binaural worklet — lies in [0, 1) after every per-sample iteration (and
hence at every entry to process()), because the wrap subtracts the integer
part instead of letting the value grow. -/
theorem phase_accumulators_in_unit_interval (sr : ℚ) (cfArr pfArr bfArr : List ℚ)
    (hsr : 0 < sr)
    (hcf : ∀ x ∈ cfArr, 0 ≤ x) (hpf : ∀ x ∈ pfArr, 0 ≤ x) (hbf : ∀ x ∈ bfArr, 0 ≤ x)
    (c0 : ℚ) (hc0 : c0 ∈ Set.Ico (0:ℚ) 1)
    (stP : PulsePhases) (hPc : stP.carrierPhase ∈ Set.Ico (0:ℚ) 1)
    (hPp : stP.pulsePhase ∈ Set.Ico (0:ℚ) 1)
    (stB : BinauralState) (hBl : stB.leftPhase ∈ Set.Ico (0:ℚ) 1)
    (hBr : stB.rightPhase ∈ Set.Ico (0:ℚ) 1) :
    ∀ i : ℕ,
      PulseWorkletProcessor.carrierAt sr cfArr c0 i ∈ Set.Ico (0:ℚ) 1 ∧
      (PulseWorkletAccum.stateAt sr cfArr pfArr stP i).carrierPhase ∈ Set.Ico (0:ℚ) 1 ∧
      (PulseWorkletAccum.stateAt sr cfArr pfArr stP i).pulsePhase ∈ Set.Ico (0:ℚ) 1 ∧
      (BinauralWorkletProcessor.stateAt sr cfArr bfArr stB i).leftPhase ∈ Set.Ico (0:ℚ) 1 ∧
      (BinauralWorkletProcessor.stateAt sr cfArr bfArr stB i).rightPhase ∈ Set.Ico (0:ℚ) 1 := by
  have hstep : ∀ (phase inc : ℚ), phase ∈ Set.Ico (0:ℚ) 1 → 0 ≤ inc →
      wrapPhase (phase + inc) ∈ Set.Ico (0:ℚ) 1 := by
    intro phase inc hphase hinc
    rw [Set.mem_Ico] at hphase ⊢
    exact wrapPhase_mem (phase + inc) (by linarith [hphase.1])
  intro i
  induction i with
  | zero => exact ⟨hc0, hPc, hPp, hBl, hBr⟩
  | succ i ih =>
    obtain ⟨h1, h2, h3, h4, h5⟩ := ih
    refine ⟨?_, ?_, ?_, ?_, ?_⟩
    · exact hstep _ _ h1 (div_nonneg (paramAt_nonneg cfArr hcf i) hsr.le)
    · exact hstep _ _ h2 (div_nonneg (paramAt_nonneg cfArr hcf i) hsr.le)
    · exact hstep _ _ h3 (div_nonneg (paramAt_nonneg pfArr hpf i) hsr.le)
    · exact hstep _ _ h4 (div_nonneg (paramAt_nonneg cfArr hcf i) hsr.le)
    · exact hstep _ _ h5 (div_nonneg
        (add_nonneg (paramAt_nonneg cfArr hcf i) (paramAt_nonneg bfArr hbf i)) hsr.le)

/-- C9 (witness): the invariant applied to a concrete configuration (48 kHz,
constant 200 Hz carrier, 10 Hz pulse and beat, all accumulators starting at
0) after 3 samples. -/
theorem phase_accumulators_in_unit_interval_witness :
    (0 : ℚ) < 48000 ∧
    PulseWorkletProcessor.carrierAt 48000 [200] 0 3 ∈ Set.Ico (0:ℚ) 1 :=
  ⟨by norm_num,
   (phase_accumulators_in_unit_interval 48000 [200] [10] [10] (by norm_num)
     (by intro x hx; rw [List.mem_singleton] at hx; rw [hx]; norm_num)
     (by intro x hx; rw [List.mem_singleton] at hx; rw [hx]; norm_num)
     (by intro x hx; rw [List.mem_singleton] at hx; rw [hx]; norm_num)
     0 (by rw [Set.mem_Ico]; norm_num)
     ⟨0, 0⟩ (by rw [Set.mem_Ico]; norm_num) (by rw [Set.mem_Ico]; norm_num)
     ⟨0, 0⟩ (by rw [Set.mem_Ico]; norm_num) (by rw [Set.mem_Ico]; norm_num) 3).1⟩

/-! ### Claim C10 -/

/-- C10: whenever the active parameter value is below 0.5, process() writes 0
to every sample of every output channel, leaves every phase accumulator and
the pulse start frame unchanged, and returns true — for the frame-based pulse
worklet, the accumulator revision, and the binaural worklet. -/
theorem inactive_process_silent (a : ℚ) (ha : a < 1/2) :
    (∀ (sr : ℚ) (currentFrame startFrame : ℤ) (cfArr pfArr : List ℚ)
        (d : ℚ) (n : ℕ) (c0 : ℚ),
      PulseWorkletProcessor.process a sr currentFrame startFrame cfArr pfArr d n c0 =
        (List.replicate n 0, (c0, startFrame), true)) ∧
    (∀ (sr : ℚ) (cfArr pfArr : List ℚ) (d : ℚ) (n : ℕ) (st0 : PulsePhases),
      PulseWorkletAccum.process a sr cfArr pfArr d n st0 =
        (List.replicate n 0, st0, true)) ∧
    (∀ (sr : ℚ) (cfArr bfArr : List ℚ) (n : ℕ) (st0 : BinauralState),
      BinauralWorkletProcessor.process a sr cfArr bfArr n st0 =
        ((List.replicate n 0, List.replicate n 0), st0, true)) := by
  have hna : ¬ (a ≥ 1/2) := not_le.mpr ha
  refine ⟨?_, ?_, ?_⟩
  · intro sr currentFrame startFrame cfArr pfArr d n c0
    unfold PulseWorkletProcessor.process
    rw [if_neg hna]
  · intro sr cfArr pfArr d n st0
    unfold PulseWorkletAccum.process
    rw [if_neg hna]
  · intro sr cfArr bfArr n st0
    unfold BinauralWorkletProcessor.process
    rw [if_neg hna]

/-- C10 (witness): an inactive (active = 0) block of 4 samples on each
processor produces silence, keeps the state, and returns true. -/
theorem inactive_process_silent_witness :
    (0 : ℚ) < 1/2 ∧
    PulseWorkletProcessor.process 0 48000 1000 0 [200] [10] (1/2) 4 (1/4) =
      (List.replicate 4 0, (1/4, 0), true) ∧
    BinauralWorkletProcessor.process 0 48000 [200] [10] 4 ⟨1/4, 1/3⟩ =
      ((List.replicate 4 0, List.replicate 4 0), ⟨1/4, 1/3⟩, true) :=
  ⟨by norm_num,
   (inactive_process_silent 0 (by norm_num)).1 48000 1000 0 [200] [10] (1/2) 4 (1/4),
   (inactive_process_silent 0 (by norm_num)).2.2 48000 [200] [10] 4 ⟨1/4, 1/3⟩⟩
